import Mathlib

set_option linter.unusedVariables false

/-!
Shallow embedding of the sublib-cli repository (src/sublib_cli/sublib_cli.py).

The CLI script orchestrates the external `sublib` package: it discovers files
(`find_files`), detects encodings (`detect_encoding`, via the external
`chardet.detect`), builds format adapters (`get_subtitle`), derives output
paths (`get_new_path`) and writes converted content (`write_file`, driven by
`main`).  The CLI functions are embedded directly from the source.  The
`sublib` adapters themselves (MPlayer2, SubRip, MicroDVD, TMPlayer, their
`get_general_format` / `set_from_general_format` methods) and the external
detectors (`chardet.detect`, `sublib.detect`) are not part of the repository
source; the adapters are modelled from the spec (sections 3, 4.2 and 4.3) and
the detectors are kept as oracle parameters.

Embedding conventions:
* machine integers are `Nat`;
* fallible code returns `Option` / `Except`; a python `UnboundLocalError` or
  `AttributeError` is an `Option.none` / `Except.error`;
* the filesystem is a finite map from path strings to nodes; paths are joined
  with a backslash exactly as the source does (`path + "\\" + file`);
* file texts already matched against a format grammar are represented by
  their record lists (the spec gives the four grammars only schematically).
-/

/-- The four convertible subtitle formats the `convert` subcommand accepts
(argparse restricts the `form` argument to these choices). -/
inductive ConvForm
  | mpl
  | srt
  | sub
  | tmp
deriving DecidableEq, Repr

/-- The CLI string for each convertible format. -/
def formStr : ConvForm → String
  | .mpl => "mpl"
  | .srt => "srt"
  | .sub => "sub"
  | .tmp => "tmp"

/-- Partial inverse of `formStr`: which convertible format a detected format
string denotes; `none` for `"undefined"` or anything else. -/
def strToForm (s : String) : Option ConvForm :=
  if s = "mpl" then some .mpl
  else if s = "srt" then some .srt
  else if s = "sub" then some .sub
  else if s = "tmp" then some .tmp
  else none

/-- Index of the last occurrence of a character in a list: python `str.rfind`
with `some` for a hit and `none` where python returns `-1`. -/
def lastIdxOf (c : Char) : List Char → Option Nat
  | [] => none
  | d :: ds =>
    match lastIdxOf c ds with
    | some i => some (i + 1)
    | none => if d = c then some 0 else none

/-- python `path[:path.rfind(".")]`: up to the last dot when one exists;
when `rfind` returns `-1`, `path[:-1]` drops the final character. -/
def stripAfterDot (cs : List Char) : List Char :=
  match lastIdxOf '.' cs with
  | some i => cs.take i
  | none => cs.dropLast

/-- Embedding of `get_new_path` (source lines 190-211): strip from the last
dot, then append `.txt` for mpl/tmp targets and `.srt`/`.sub` for srt/sub. -/
def get_new_path (path : String) (form : String) : String :=
  let p : String := ⟨stripAfterDot path.data⟩
  if form = "mpl" ∨ form = "tmp" then p ++ ".txt"
  else if form = "srt" ∨ form = "sub" then p ++ "." ++ form
  else p

/-- The output extension the spec assigns to each target format. -/
def targetExt : ConvForm → String
  | .mpl => ".txt"
  | .tmp => ".txt"
  | .srt => ".srt"
  | .sub => ".sub"

/-- Modelled from the spec: one timed caption of the neutral intermediate
representation (spec `SubtitleEntry`): sequence index, start and stop times
in milliseconds since zero, and the caption text lines (line breaks kept as
list structure). -/
structure Entry where
  index : Nat
  start : Nat
  stop : Nat
  lines : List String
deriving DecidableEq, Repr

/-- Modelled from the spec: `GeneralFormat`, the ordered sequence of entries
all adapters convert to and from. -/
abbrev GeneralFormat := List Entry

/-- Modelled from the spec: one MPlayer2 record `{start}{stop}text` with
times in integer or fractional seconds; embedded with one fractional digit,
i.e. as deciseconds. -/
structure MplRec where
  start : Nat
  stop : Nat
  lines : List String
deriving DecidableEq, Repr

/-- Modelled from the spec: one SubRip timestamp `HH:MM:SS,mmm`. -/
structure SrtStamp where
  h : Nat
  m : Nat
  s : Nat
  ms : Nat
deriving DecidableEq, Repr

/-- Modelled from the spec: one SubRip record: numeric index line, a
timestamp line, then the text lines. -/
structure SrtRec where
  idx : Nat
  start : SrtStamp
  stop : SrtStamp
  lines : List String
deriving DecidableEq, Repr

/-- Modelled from the spec: one MicroDVD record `{start_frame}{end_frame}text`
with integer frame counts. -/
structure SubRec where
  startF : Nat
  stopF : Nat
  lines : List String
deriving DecidableEq, Repr

/-- Modelled from the spec: one TMPlayer record `HH:MM:SS:text`, a single
start timestamp per entry. -/
structure TmpRec where
  h : Nat
  m : Nat
  s : Nat
  lines : List String
deriving DecidableEq, Repr

/-- Modelled from the spec: MPlayer2 parse; deciseconds become milliseconds,
entries are indexed by position. -/
def parseMpl (i : Nat) : List MplRec → GeneralFormat
  | [] => []
  | r :: rs => ⟨i, r.start * 100, r.stop * 100, r.lines⟩ :: parseMpl (i + 1) rs

/-- Modelled from the spec: MPlayer2 serialize; milliseconds are rounded
(not truncated) to deciseconds. -/
def serializeMpl (g : GeneralFormat) : List MplRec :=
  g.map fun e => ⟨(e.start + 50) / 100, (e.stop + 50) / 100, e.lines⟩

/-- Milliseconds denoted by a SubRip timestamp. -/
def stampToMs (t : SrtStamp) : Nat :=
  (t.h * 3600 + t.m * 60 + t.s) * 1000 + t.ms

/-- Normalized SubRip timestamp for a millisecond count. -/
def msToStamp (n : Nat) : SrtStamp :=
  ⟨n / 3600000, n % 3600000 / 60000, n % 60000 / 1000, n % 1000⟩

/-- Modelled from the spec: SubRip parse; entry indices come from the index
lines of the records, timestamps become milliseconds. -/
def parseSrt : List SrtRec → GeneralFormat :=
  List.map fun r => ⟨r.idx, stampToMs r.start, stampToMs r.stop, r.lines⟩

/-- Modelled from the spec: SubRip serialize; entries are re-numbered
sequentially and timestamps decomposed into `HH:MM:SS,mmm`. -/
def serializeSrt (i : Nat) : GeneralFormat → List SrtRec
  | [] => []
  | e :: es => ⟨i, msToStamp e.start, msToStamp e.stop, e.lines⟩ :: serializeSrt (i + 1) es

/-- Modelled from the spec: MicroDVD parse at the documented default frame
rate of 25 fps (40 ms per frame). -/
def parseSub (i : Nat) : List SubRec → GeneralFormat
  | [] => []
  | r :: rs => ⟨i, r.startF * 40, r.stopF * 40, r.lines⟩ :: parseSub (i + 1) rs

/-- Modelled from the spec: MicroDVD serialize at 25 fps; milliseconds are
rounded (not truncated) to frames. -/
def serializeSub (g : GeneralFormat) : List SubRec :=
  g.map fun e => ⟨(e.start + 20) / 40, (e.stop + 20) / 40, e.lines⟩

/-- Milliseconds denoted by a TMPlayer `HH:MM:SS` start time. -/
def tmpStartMs (r : TmpRec) : Nat :=
  (r.h * 3600 + r.m * 60 + r.s) * 1000

/-- Modelled from the spec: TMPlayer parse; the implicit end time of an entry
is the start of the next entry, and a fixed five-second duration for the
last entry. -/
def parseTmp (i : Nat) : List TmpRec → GeneralFormat
  | [] => []
  | r :: rs =>
    ⟨i, tmpStartMs r,
      (match rs with
       | [] => tmpStartMs r + 5000
       | r2 :: _ => tmpStartMs r2),
      r.lines⟩ :: parseTmp (i + 1) rs

/-- Modelled from the spec: the TMPlayer record serialized from one entry;
seconds are rounded, the end time is dropped per the single-timestamp
convention. -/
def tmpRecOf (e : Entry) : TmpRec :=
  let sec := (e.start + 500) / 1000
  ⟨sec / 3600, sec % 3600 / 60, sec % 60, e.lines⟩

/-- Modelled from the spec: TMPlayer serialize. -/
def serializeTmp (g : GeneralFormat) : List TmpRec :=
  g.map tmpRecOf

/-- The grammar-matched records of a subtitle file text in one of the four
formats (the well-formed texts of a format are exactly its record lists). -/
inductive Content
  | mpl (rs : List MplRec)
  | srt (rs : List SrtRec)
  | sub (rs : List SubRec)
  | tmp (rs : List TmpRec)
deriving DecidableEq, Repr

/-- The format a content belongs to. -/
def formOf : Content → ConvForm
  | .mpl _ => .mpl
  | .srt _ => .srt
  | .sub _ => .sub
  | .tmp _ => .tmp

/-- Modelled from the spec: parse a format text into the GeneralFormat. -/
def parseContent : Content → GeneralFormat
  | .mpl rs => parseMpl 1 rs
  | .srt rs => parseSrt rs
  | .sub rs => parseSub 1 rs
  | .tmp rs => parseTmp 1 rs

/-- Modelled from the spec: serialize a GeneralFormat into a target format
text. -/
def serializeContent : ConvForm → GeneralFormat → Content
  | .mpl, g => .mpl (serializeMpl g)
  | .srt, g => .srt (serializeSrt 1 g)
  | .sub, g => .sub (serializeSub g)
  | .tmp, g => .tmp (serializeTmp g)

/-- Modelled from the spec: what each of the four grammars matches in one
file text; the reading oracle returns, per path, the record lists obtained
by matching each grammar (the matching itself lives in the external
`sublib` package, outside this repository's source). -/
structure FileData where
  mpl : List MplRec
  srt : List SrtRec
  sub : List SubRec
  tmp : List TmpRec

/-- Oracle standing for the external file reading plus grammar matching done
inside the `sublib` adapters' constructors. -/
abbrev ReadOracle := String → FileData

/-- Modelled from the spec: a `sublib.Subtitle` adapter object: its format,
source path, encoding, and grammar-matched content. -/
structure Subtitle where
  form : ConvForm
  path : String
  encoding : Option String
  content : Content
deriving DecidableEq, Repr

namespace sublib

/-- Modelled from the spec: the MPlayer2 adapter constructor; it matches the
file at `path` against the MPlayer2 grammar; an empty path yields an empty
subtitle (how `write_file` builds its target adapter). -/
def MPlayer2 (ro : ReadOracle) (path : String) (encoding : Option String) : Subtitle :=
  ⟨.mpl, path, encoding, .mpl (if path = "" then [] else (ro path).mpl)⟩

/-- Modelled from the spec: the SubRip adapter constructor. -/
def SubRip (ro : ReadOracle) (path : String) (encoding : Option String) : Subtitle :=
  ⟨.srt, path, encoding, .srt (if path = "" then [] else (ro path).srt)⟩

/-- Modelled from the spec: the MicroDVD adapter constructor. -/
def MicroDVD (ro : ReadOracle) (path : String) (encoding : Option String) : Subtitle :=
  ⟨.sub, path, encoding, .sub (if path = "" then [] else (ro path).sub)⟩

/-- Modelled from the spec: the TMPlayer adapter constructor. -/
def TMPlayer (ro : ReadOracle) (path : String) (encoding : Option String) : Subtitle :=
  ⟨.tmp, path, encoding, .tmp (if path = "" then [] else (ro path).tmp)⟩

end sublib

/-- Modelled from the spec: `Subtitle.get_general_format`, parsing the
adapter's content into the neutral representation. -/
def get_general_format (s : Subtitle) : GeneralFormat :=
  parseContent s.content

/-- Modelled from the spec: `Subtitle.set_from_general_format`, replacing the
adapter's content by the serialization of a GeneralFormat into the
adapter's own format. -/
def set_from_general_format (s : Subtitle) (g : GeneralFormat) : Subtitle :=
  { s with content := serializeContent s.form g }

/-- The per-file dict `main` builds (source lines 302-308): detected format
string, path, detected encoding (`none` models python `None`, chardet's
value when no encoding is detected). -/
structure SubDict where
  format : String
  path : String
  encoding : Option String
deriving DecidableEq, Repr

/-- Embedding of `get_subtitle` (source lines 163-187): dispatch on the
format string; when no branch matches (e.g. `"undefined"`), the python
function returns its dict argument unchanged, modelled by `Sum.inr`. -/
def get_subtitle (ro : ReadOracle) (d : SubDict) : Subtitle ⊕ SubDict :=
  if d.format = "mpl" then .inl (sublib.MPlayer2 ro d.path d.encoding)
  else if d.format = "srt" then .inl (sublib.SubRip ro d.path d.encoding)
  else if d.format = "sub" then .inl (sublib.MicroDVD ro d.path d.encoding)
  else if d.format = "tmp" then .inl (sublib.TMPlayer ro d.path d.encoding)
  else .inr d

/-- The adapter constructor selected by each format tag: mpl to MPlayer2,
srt to SubRip, sub to MicroDVD, tmp to TMPlayer. -/
def adapterOf (ro : ReadOracle) : ConvForm → String → Option String → Subtitle
  | .mpl, p, e => sublib.MPlayer2 ro p e
  | .srt, p, e => sublib.SubRip ro p e
  | .sub, p, e => sublib.MicroDVD ro p e
  | .tmp, p, e => sublib.TMPlayer ro p e

/-- The per-output dict `main` builds (source lines 315-320): derived output
path and the encoding carried over from the input dict. -/
structure OutDict where
  path : String
  encoding : Option String
deriving DecidableEq, Repr

/-- One completed output write: the path handed to `open`, the encoding
handed to `open`, and the content written (one line per record). -/
structure WriteEvent where
  path : String
  encoding : Option String
  content : Content
deriving DecidableEq, Repr

/-- Embedding of `write_file` (source lines 214-244): build the target
adapter from the requested format (empty path and encoding), take the
source adapter's general format, load it into the target adapter, and write
the target content to `file["path"]` opened with `file["encoding"]`.
A dict in subtitle position (an unmatched format fell through
`get_subtitle`) raises `AttributeError` at the method call, before any
output is opened (in the source, `new = get_subtitle(...)` runs first; it
is side-effect free, so the evaluation order does not matter here). -/
def write_file (ro : ReadOracle) (subtitle : Subtitle ⊕ SubDict)
    (file : OutDict) (form : String) : Except String WriteEvent :=
  match subtitle with
  | .inr _ => .error "AttributeError: dict has no method get_general_format"
  | .inl sub =>
    match get_subtitle ro ⟨form, "", some ""⟩ with
    | .inr _ => .error "AttributeError: dict has no method set_from_general_format"
    | .inl tgt =>
      .ok ⟨file.path, file.encoding,
        (set_from_general_format tgt (get_general_format sub)).content⟩

/-- A filesystem node: a regular file with its bytes, a directory, or
anything else (socket, device node, ...). -/
inductive NodeKind
  | fileNode (bytes : List Nat)
  | dirNode
  | otherNode
deriving DecidableEq, Repr

/-- A filesystem: a finite map from absolute paths (components joined by
backslash, as the source joins them) to nodes. -/
structure FS where
  entries : List (String × NodeKind)
deriving DecidableEq, Repr

/-- First entry registered at a path, if any. -/
def FS.lookup (fs : FS) (p : String) : Option NodeKind :=
  (fs.entries.find? fun e => e.1 == p).map (·.2)

/-- python `os.path.isfile`. -/
def FS.isFile (fs : FS) (p : String) : Bool :=
  match fs.lookup p with
  | some (.fileNode _) => true
  | _ => false

/-- python `os.path.isdir`. -/
def FS.isDir (fs : FS) (p : String) : Bool :=
  match fs.lookup p with
  | some .dirNode => true
  | _ => false

/-- python `os.path.exists`. -/
def FS.existsPath (fs : FS) (p : String) : Bool :=
  (fs.lookup p).isSome

/-- Bytes of the file at a path (empty for anything else). -/
def FS.read (fs : FS) (p : String) : List Nat :=
  match fs.lookup p with
  | some (.fileNode bs) => bs
  | _ => []

/-- Remove a leading run of characters from a list; `some` of the remainder
exactly when the first list leads the second. -/
def chopLead : List Char → List Char → Option (List Char)
  | [], q => some q
  | _ :: _, [] => none
  | c :: p, d :: q => if c = d then chopLead p q else none

/-- The name under which `q` is a direct child of directory `p`: `some name`
exactly when `q` is `p`, a backslash, and a nonempty backslash-free
`name`. -/
def childName (p q : String) : Option String :=
  match chopLead (p.data ++ ['\\']) q.data with
  | some rest => if rest ≠ [] ∧ '\\' ∉ rest then some (⟨rest⟩ : String) else none
  | none => none

/-- The filenames of the first `os.walk` triple: the files directly inside
directory `p` (files in subdirectories belong to later triples, which the
source never reads). -/
def directChildFiles (fs : FS) (p : String) : List String :=
  fs.entries.filterMap fun e =>
    match e.2 with
    | .fileNode _ => childName p e.1
    | _ => none

/-- Every file anywhere below directory `p` (the whole tree). -/
def allFilesUnder (fs : FS) (p : String) : List String :=
  fs.entries.filterMap fun e =>
    match e.2 with
    | .fileNode _ => if (chopLead (p.data ++ ['\\']) e.1.data).isSome then some e.1 else none
    | _ => none

/-- Embedding of `find_files` (source lines 119-140): a file yields itself;
a directory yields `files[0][2]` of `os.walk`, each joined as
`path + "\\" + file`; the two `if` statements are independent, and when
neither fires the local `files` is never assigned, which python reports as
an `UnboundLocalError`, modelled by `none`. -/
def find_files (fs : FS) (path : String) : Option (List String) :=
  let files : Option (List String) := none
  let files := if fs.isFile path then some [path] else files
  let files := if fs.isDir path then
      some ((directChildFiles fs path).map fun f => path ++ "\\" ++ f)
    else files
  files

/-- The external `chardet.detect` result on a byte string: `none` models a
`None` encoding (detection failed). -/
abbrev Chardet := List Nat → Option String

/-- Embedding of `detect_encoding` (source lines 143-160): read the file
bytes and return the chardet encoding, with no fallback of its own. -/
def detect_encoding (chardet : Chardet) (fs : FS) (file : String) : Option String :=
  chardet (fs.read file)

/-- The external `sublib.detect` classifier: given a path and an encoding it
returns one of `"mpl"`, `"srt"`, `"sub"`, `"tmp"`, `"undefined"` (kept as an
unconstrained oracle; its heuristic is outside the repository source). -/
abbrev SublibDetect := String → Option String → String

/-- The CLI subcommand with its arguments. -/
inductive Command
  | convert (form : ConvForm)
  | detect
deriving DecidableEq, Repr

/-- Observable outcome of one run: process exit code, fatal or caught error
message (python `sys.exit(msg)` exits with status 1; an uncaught exception
is caught at top level, printed as an unknown error, and the process ends
with status 0), the writes performed, and the detect messages printed. -/
structure RunResult where
  exitCode : Nat
  errMsg : Option String
  writes : List WriteEvent
  detects : List String
deriving DecidableEq, Repr

/-- The conversion loop (source lines 329-330): `write_file` per zipped
subtitle/output pair; an exception stops the loop, keeping the writes
already performed. -/
def runWrites (ro : ReadOracle) (form : String) :
    List (Subtitle ⊕ SubDict) → List OutDict → List WriteEvent × Option String
  | s :: ss, o :: os =>
    match write_file ro s o form with
    | .ok ev =>
      let r := runWrites ro form ss os
      (ev :: r.1, r.2)
    | .error e => ([], some e)
  | _, _ => ([], none)

/-- python `os.path.basename` over the backslash-joined paths this model
uses. -/
def pyBasename (s : String) : String :=
  ⟨(s.data.reverse.takeWhile fun c => c ≠ '\\').reverse⟩

/-- The `forms` dict of the detect loop (source lines 339-345); `none`
models a `KeyError` on an unexpected classifier string. -/
def formsName (s : String) : Option String :=
  if s = "mpl" then some "MPlayer2"
  else if s = "srt" then some "SubRip"
  else if s = "sub" then some "MicroDVD"
  else if s = "tmp" then some "TMPlayer"
  else if s = "undefined" then some "Unknown"
  else none

/-- The detect loop (source lines 334-349): per file, detect encoding and
format and print the message; a `KeyError` stops the loop. -/
def runDetects (chardet : Chardet) (sdetect : SublibDetect) (fs : FS) :
    List String → List String × Option String
  | [] => ([], none)
  | f :: rest =>
    match formsName (sdetect f (detect_encoding chardet fs f)) with
    | some nm =>
      let r := runDetects chardet sdetect fs rest
      ((pyBasename f ++ " is in " ++ nm ++ " format") :: r.1, r.2)
    | none => ([], some "KeyError")

namespace cli

/-- Embedding of `main` (source lines 272-351) for an already-absolute path
(logging elided: it produces no observable result here).  A missing path is
fatal: `sys.exit` with a printed message and status 1, before any file is
processed.  Otherwise the convert or detect loop runs; an exception inside
it is caught by the top-level handler, which prints an unknown-error
message and lets the process end with status 0. -/
def main (ro : ReadOracle) (fs : FS) (chardet : Chardet) (sdetect : SublibDetect)
    (command : Command) (path : String) : RunResult :=
  if fs.existsPath path then
    match command with
    | .convert form =>
      match find_files fs path with
      | none => ⟨0, some "An unknown error has occurred", [], []⟩
      | some files =>
        let input_files : List SubDict := files.map fun f =>
          ⟨sdetect f (detect_encoding chardet fs f), f, detect_encoding chardet fs f⟩
        let output_files : List OutDict := input_files.map fun d =>
          ⟨get_new_path d.path (formStr form), d.encoding⟩
        let input_subtitles := input_files.map (get_subtitle ro)
        let r := runWrites ro (formStr form) input_subtitles output_files
        ⟨0, r.2.map fun _ => "An unknown error has occurred", r.1, []⟩
    | .detect =>
      match find_files fs path with
      | none => ⟨0, some "An unknown error has occurred", [], []⟩
      | some files =>
        let r := runDetects chardet sdetect fs files
        ⟨0, r.2.map fun _ => "An unknown error has occurred", [], r.1⟩
  else ⟨1, some ("Path does not exists: " ++ path), [], []⟩

end cli

/-! Helper lemmas. -/

lemma lastIdxOf_of_not_mem (c : Char) (l : List Char) (h : c ∉ l) :
    lastIdxOf c l = none := by
  induction l with
  | nil => rfl
  | cons d ds ih =>
    simp only [List.mem_cons, not_or] at h
    rw [lastIdxOf, ih h.2]
    exact if_neg fun hdc => h.1 hdc.symm

lemma lastIdxOf_append (c : Char) (stem ext : List Char) (h : c ∉ ext) :
    lastIdxOf c (stem ++ c :: ext) = some stem.length := by
  induction stem with
  | nil => simp [lastIdxOf, lastIdxOf_of_not_mem c ext h]
  | cons d ds ih => simp [lastIdxOf, ih]

lemma take_len_append {α : Type} (s t : List α) : (s ++ t).take s.length = s := by
  induction s with
  | nil => rfl
  | cons a as ih => simp [ih]

lemma stripAfterDot_ext (stem ext : List Char) (h : '.' ∉ ext) :
    stripAfterDot (stem ++ '.' :: ext) = stem := by
  unfold stripAfterDot
  rw [lastIdxOf_append '.' stem ext h]
  exact take_len_append stem ('.' :: ext)

lemma stripAfterDot_no_dot (cs : List Char) (h : '.' ∉ cs) :
    stripAfterDot cs = cs.dropLast := by
  unfold stripAfterDot
  rw [lastIdxOf_of_not_mem '.' cs h]

lemma strData_append (a b : String) : (a ++ b).data = a.data ++ b.data := by
  cases a
  cases b
  rfl

lemma strMk_append (a : List Char) (b : String) :
    (⟨a⟩ : String) ++ b = ⟨a ++ b.data⟩ := by
  cases b
  rfl

lemma str_append_assoc (a b c : String) : a ++ b ++ c = a ++ (b ++ c) := by
  cases a with
  | mk x =>
    cases b with
    | mk y =>
      cases c with
      | mk z =>
        show String.mk (x ++ y ++ z) = String.mk (x ++ (y ++ z))
        exact congrArg String.mk (List.append_assoc x y z)

/-! C4 and C8: the derived output path. -/

/-- C4: for every input path containing an extension (a final dot followed
by a dot-free suffix) and every target format, get_new_path replaces the
extension: mpl and tmp targets yield .txt, srt yields .srt, sub yields
.sub. -/
theorem get_new_path_replaces_extension (stem ext : String) (form : ConvForm)
    (h : '.' ∉ ext.data) :
    get_new_path (stem ++ "." ++ ext) (formStr form) = stem ++ targetExt form := by
  have hdata : (stem ++ "." ++ ext).data = stem.data ++ '.' :: ext.data := by
    rw [strData_append, strData_append]
    simp [show ".".data = ['.'] from rfl]
  unfold get_new_path
  rw [hdata, stripAfterDot_ext _ _ h]
  cases form <;> simp [formStr, targetExt] <;>
    (rw [str_append_assoc]; exact congrArg (fun t => stem ++ t) (by decide))

/-- C8: for every input path containing no dot, get_new_path drops the final
character of the path and then appends the target extension (python
rfind returning -1 makes `path[:-1]` remove the last character). -/
theorem get_new_path_no_dot_drops_last_char (path : String) (form : ConvForm)
    (h : '.' ∉ path.data) :
    get_new_path path (formStr form) =
      (⟨path.data.dropLast⟩ : String) ++ targetExt form := by
  unfold get_new_path
  rw [stripAfterDot_no_dot path.data h]
  cases form <;> simp [formStr, targetExt] <;>
    (rw [str_append_assoc];
     exact congrArg (fun t => (⟨path.data.dropLast⟩ : String) ++ t) (by decide))

/-- Witness for C4 at a concrete path and target. -/
theorem get_new_path_replaces_extension_witness :
    '.' ∉ "srt".data ∧
      get_new_path ("movie" ++ "." ++ "srt") (formStr .mpl) = "movie" ++ targetExt .mpl :=
  ⟨by decide, get_new_path_replaces_extension "movie" "srt" .mpl (by decide)⟩

/-- Witness for C8 at a concrete dot-free path. -/
theorem get_new_path_no_dot_drops_last_char_witness :
    '.' ∉ "abc".data ∧
      get_new_path "abc" (formStr .srt) =
        (⟨"abc".data.dropLast⟩ : String) ++ targetExt .srt :=
  ⟨by decide, get_new_path_no_dot_drops_last_char "abc" .srt (by decide)⟩

/-! C10: find_files is defined exactly on files and directories. -/

/-- C10: find_files returns a defined result exactly when the path is a
regular file or a directory; on an existing path of any other kind its
python local variable is never assigned, an UnboundLocalError modelled by
none. -/
theorem find_files_defined_iff (fs : FS) (p : String) :
    (find_files fs p).isSome = (fs.isFile p || fs.isDir p) := by
  unfold find_files
  cases hd : fs.isDir p <;> cases hf : fs.isFile p <;> simp [hd, hf]

/-! C5: a missing path aborts the whole run. -/

/-- C5: when the path argument does not exist, the run terminates with a
non-zero exit status and a printed message, and no file is converted or
detected. -/
theorem missing_path_aborts (ro : ReadOracle) (fs : FS) (chardet : Chardet)
    (sdetect : SublibDetect) (cmd : Command) (path : String)
    (h : fs.existsPath path = false) :
    cli.main ro fs chardet sdetect cmd path =
        ⟨1, some ("Path does not exists: " ++ path), [], []⟩ ∧
      (cli.main ro fs chardet sdetect cmd path).exitCode ≠ 0 := by
  have hm : cli.main ro fs chardet sdetect cmd path =
      ⟨1, some ("Path does not exists: " ++ path), [], []⟩ := by
    unfold cli.main
    rw [h]
    rfl
  exact ⟨hm, by rw [hm]; exact one_ne_zero⟩

/-- Witness for C5: an empty filesystem and any command. -/
theorem missing_path_aborts_witness :
    (FS.mk []).existsPath "missing" = false ∧
      (cli.main (fun _ => ⟨[], [], [], []⟩) ⟨[]⟩ (fun _ => none) (fun _ _ => "srt")
          (.convert .srt) "missing" =
        ⟨1, some ("Path does not exists: " ++ "missing"), [], []⟩ ∧
      (cli.main (fun _ => ⟨[], [], [], []⟩) ⟨[]⟩ (fun _ => none) (fun _ _ => "srt")
          (.convert .srt) "missing").exitCode ≠ 0) :=
  ⟨rfl, missing_path_aborts _ _ _ _ _ _ rfl⟩

/-! C1: an undefined source format makes conversion fail with no output. -/

lemma get_subtitle_undefined (ro : ReadOracle) (d : SubDict)
    (h : d.format = "undefined") : get_subtitle ro d = .inr d := by
  simp [get_subtitle, h]

/-- C1: for a file whose detected format is undefined, the dict falls
through get_subtitle unchanged, and the conversion attempt in write_file
fails explicitly (the AttributeError on the dict) before any output is
opened: no write event, hence no empty or corrupt output, is ever
produced for that file. -/
theorem undefined_conversion_fails (ro : ReadOracle) (d : SubDict) (o : OutDict)
    (form : String) (h : d.format = "undefined") :
    (∃ msg, write_file ro (get_subtitle ro d) o form = .error msg) ∧
      ∀ ev, write_file ro (get_subtitle ro d) o form ≠ Except.ok ev := by
  have hgs : get_subtitle ro d = .inr d := get_subtitle_undefined ro d h
  rw [hgs]
  refine ⟨⟨"AttributeError: dict has no method get_general_format", rfl⟩, ?_⟩
  intro ev hev
  simp [write_file] at hev

/-- Witness for C1 at a concrete undefined-format file. -/
theorem undefined_conversion_fails_witness :
    (SubDict.mk "undefined" "x.xyz" (some "utf-8")).format = "undefined" ∧
      ((∃ msg, write_file (fun _ => ⟨[], [], [], []⟩)
            (get_subtitle (fun _ => ⟨[], [], [], []⟩) ⟨"undefined", "x.xyz", some "utf-8"⟩)
            ⟨"x.txt", some "utf-8"⟩ "srt" = .error msg) ∧
        ∀ ev, write_file (fun _ => ⟨[], [], [], []⟩)
            (get_subtitle (fun _ => ⟨[], [], [], []⟩) ⟨"undefined", "x.xyz", some "utf-8"⟩)
            ⟨"x.txt", some "utf-8"⟩ "srt" ≠ Except.ok ev) :=
  ⟨rfl, undefined_conversion_fails _ _ _ _ rfl⟩

/-! C2: directory discovery reaches only the top level. -/

lemma strEq_of_data {a b : String} (h : a.data = b.data) : a = b := by
  cases a
  cases b
  exact congrArg String.mk h

lemma chopLead_sound (a : List Char) :
    ∀ b r, chopLead a b = some r → b = a ++ r := by
  induction a with
  | nil =>
    intro b r h
    simp only [chopLead, Option.some.injEq] at h
    simp [h]
  | cons c cs ih =>
    intro b r h
    cases b with
    | nil => simp [chopLead] at h
    | cons d ds =>
      unfold chopLead at h
      split at h
      · next hcd => simp [hcd, ih ds r h]
      · next => simp at h

lemma childName_eq (p q name : String) (h : childName p q = some name) :
    p ++ "\\" ++ name = q := by
  unfold childName at h
  cases hc : chopLead (p.data ++ ['\\']) q.data with
  | none => rw [hc] at h; simp at h
  | some rest =>
    rw [hc] at h
    simp at h
    obtain ⟨-, hn⟩ := h
    have hq : q.data = p.data ++ ['\\'] ++ rest := by
      simpa [List.append_assoc] using chopLead_sound _ _ _ hc
    subst hn
    apply strEq_of_data
    rw [strData_append, strData_append, hq]

/-- Filesystem of the C2 counterexample: directory `d` holding only a
subdirectory `d\s`, which holds the file `d\s\a.srt`. -/
def c2fs : FS :=
  ⟨[("d", .dirNode), ("d\\s", .dirNode), ("d\\s\\a.srt", .fileNode [])]⟩

/-- C2 counterexample: the directory tree under `d` contains the file
`d\s\a.srt`, but find_files on `d` discovers nothing (it reads only the
first os.walk triple), so a convert run over `d` performs no write at
all. -/
theorem find_files_misses_subdirectory_file :
    c2fs.isDir "d" = true ∧
      ("d\\s\\a.srt", NodeKind.fileNode []) ∈ c2fs.entries ∧
      "d\\s\\a.srt" ∈ allFilesUnder c2fs "d" ∧
      find_files c2fs "d" = some [] ∧
      (cli.main (fun _ => ⟨[], [], [], []⟩) c2fs (fun _ => some "utf-8")
          (fun _ _ => "srt") (.convert .srt) "d").writes = [] := by
  decide

/-- C2 amended: for an existing directory path, the program discovers and
processes exactly the files lying directly inside that directory (joined as
`path + backslash + name`); files in subdirectories are not discovered. -/
theorem find_files_dir_top_level_only (fs : FS) (p : String)
    (hdir : fs.isDir p = true) :
    ∃ l, find_files fs p = some l ∧
      ∀ q, (q ∈ l ↔
        ∃ bs, ((q, NodeKind.fileNode bs) ∈ fs.entries ∧ (childName p q).isSome)) := by
  refine ⟨(directChildFiles fs p).map (fun f => p ++ "\\" ++ f), ?_, ?_⟩
  · simp [find_files, hdir]
  · intro q
    constructor
    · intro hq
      rw [List.mem_map] at hq
      obtain ⟨name, hname, hqe⟩ := hq
      unfold directChildFiles at hname
      rw [List.mem_filterMap] at hname
      obtain ⟨e, he, hm⟩ := hname
      cases e with
      | mk q' k =>
        cases k with
        | fileNode bs =>
          simp only at hm
          have hqq : q = q' := by
            rw [← hqe, childName_eq p q' name hm]
          subst hqq
          exact ⟨bs, he, by simp [hm]⟩
        | dirNode => simp at hm
        | otherNode => simp at hm
    · rintro ⟨bs, hmem, hsome⟩
      obtain ⟨name, hn⟩ := Option.isSome_iff_exists.mp hsome
      rw [List.mem_map]
      refine ⟨name, ?_, childName_eq p q name hn⟩
      unfold directChildFiles
      rw [List.mem_filterMap]
      exact ⟨(q, .fileNode bs), hmem, by simp [hn]⟩

/-- Witness for the amended C2 on the counterexample filesystem. -/
theorem find_files_dir_top_level_only_witness :
    c2fs.isDir "d" = true ∧
      ∃ l, find_files c2fs "d" = some l ∧
        ∀ q, (q ∈ l ↔
          ∃ bs, ((q, NodeKind.fileNode bs) ∈ c2fs.entries ∧ (childName "d" q).isSome)) :=
  ⟨by decide, find_files_dir_top_level_only c2fs "d" (by decide)⟩

/-! Pipeline lemmas shared by the conversion claims. -/

lemma get_subtitle_formStr (ro : ReadOracle) (c : ConvForm) (p : String)
    (e : Option String) :
    get_subtitle ro ⟨formStr c, p, e⟩ = .inl (adapterOf ro c p e) := by
  cases c <;> rfl

lemma get_subtitle_known (ro : ReadOracle) (d : SubDict) (c : ConvForm)
    (h : strToForm d.format = some c) :
    get_subtitle ro d = .inl (adapterOf ro c d.path d.encoding) := by
  unfold strToForm at h
  split_ifs at h with h1 h2 h3 h4
  · injection h with h0
    subst h0
    unfold get_subtitle
    rw [if_pos h1]
    rfl
  · injection h with h0
    subst h0
    unfold get_subtitle
    rw [if_neg h1, if_pos h2]
    rfl
  · injection h with h0
    subst h0
    unfold get_subtitle
    rw [if_neg h1, if_neg h2, if_pos h3]
    rfl
  · injection h with h0
    subst h0
    unfold get_subtitle
    rw [if_neg h1, if_neg h2, if_neg h3, if_pos h4]
    rfl

lemma write_file_inl_ok (ro : ReadOracle) (sub : Subtitle) (o : OutDict)
    (form : String) (tgt : Subtitle)
    (hgs : get_subtitle ro ⟨form, "", some ""⟩ = .inl tgt) :
    write_file ro (.inl sub) o form =
      .ok ⟨o.path, o.encoding,
        (set_from_general_format tgt (get_general_format sub)).content⟩ := by
  unfold write_file
  rw [hgs]

lemma write_file_ok_fields (ro : ReadOracle) (s : Subtitle ⊕ SubDict) (o : OutDict)
    (form : String) (ev : WriteEvent) (h : write_file ro s o form = .ok ev) :
    ev.path = o.path ∧ ev.encoding = o.encoding := by
  unfold write_file at h
  cases s with
  | inr d => simp at h
  | inl sub =>
    cases hgs : get_subtitle ro ⟨form, "", some ""⟩ with
    | inr d => rw [hgs] at h; simp at h
    | inl tgt =>
      rw [hgs] at h
      simp only [Except.ok.injEq] at h
      rw [← h]
      exact ⟨rfl, rfl⟩

lemma runWrites_map_ok {α : Type} (ro : ReadOracle) (form : String) (l : List α)
    (g : α → Subtitle ⊕ SubDict) (o : α → OutDict) (w : α → WriteEvent)
    (h : ∀ x ∈ l, write_file ro (g x) (o x) form = .ok (w x)) :
    runWrites ro form (l.map g) (l.map o) = (l.map w, none) := by
  induction l with
  | nil => rfl
  | cons x xs ih =>
    have hx := h x (List.mem_cons_self x xs)
    simp [runWrites, hx, ih fun y hy => h y (List.mem_cons_of_mem x hy)]

lemma runWrites_encoding (ro : ReadOracle) (form : String) :
    ∀ (ss : List (Subtitle ⊕ SubDict)) (os : List OutDict) (i : Nat) (ev : WriteEvent),
      (runWrites ro form ss os).1[i]? = some ev →
      ∃ o, os[i]? = some o ∧ ev.encoding = o.encoding := by
  intro ss
  induction ss with
  | nil => intro os i ev h; simp [runWrites] at h
  | cons s ss ih =>
    intro os i ev h
    cases os with
    | nil => simp [runWrites] at h
    | cons o os =>
      cases hwf : write_file ro s o form with
      | error e => simp [runWrites, hwf] at h
      | ok ev0 =>
        simp only [runWrites, hwf] at h
        cases i with
        | zero =>
          simp at h
          subst h
          exact ⟨o, by simp, (write_file_ok_fields ro s o form ev0 hwf).2⟩
        | succ n =>
          simp at h
          obtain ⟨o', ho', he⟩ := ih os n ev h
          exact ⟨o', by simp [ho'], he⟩

lemma main_convert_writes (ro : ReadOracle) (fs : FS) (chardet : Chardet)
    (sdetect : SublibDetect) (form : ConvForm) (path : String) (files : List String)
    (hex : fs.existsPath path = true) (hfind : find_files fs path = some files) :
    (cli.main ro fs chardet sdetect (.convert form) path).writes =
      (runWrites ro (formStr form)
        (files.map fun f =>
          get_subtitle ro
            ⟨sdetect f (detect_encoding chardet fs f), f, detect_encoding chardet fs f⟩)
        (files.map fun f =>
          ⟨get_new_path f (formStr form), detect_encoding chardet fs f⟩)).1 := by
  unfold cli.main
  rw [hex, hfind]
  simp only [List.map_map]
  rfl

/-! C3: the conversion pipeline per file. -/

/-- C3: for input files whose detected format is known, the convert run
builds the source adapter selected by the detected tag via adapterOf (mpl to
MPlayer2, srt to SubRip, sub to MicroDVD, tmp to TMPlayer), extracts its
general-format representation, loads it into a target adapter built from the
requested tag, and writes the target content to the derived target path with
the detected encoding. -/
theorem convert_pipeline_per_file (ro : ReadOracle) (fs : FS) (chardet : Chardet)
    (sdetect : SublibDetect) (form : ConvForm) (path : String) (files : List String)
    (hex : fs.existsPath path = true)
    (hfind : find_files fs path = some files)
    (hknown : ∀ f ∈ files,
      ∃ c, strToForm (sdetect f (detect_encoding chardet fs f)) = some c) :
    (cli.main ro fs chardet sdetect (.convert form) path).writes =
      files.map fun f =>
        { path := get_new_path f (formStr form)
          encoding := detect_encoding chardet fs f
          content := (set_from_general_format (adapterOf ro form "" (some ""))
            (get_general_format
              (adapterOf ro
                ((strToForm (sdetect f (detect_encoding chardet fs f))).getD .mpl)
                f (detect_encoding chardet fs f)))).content } := by
  rw [main_convert_writes ro fs chardet sdetect form path files hex hfind,
    runWrites_map_ok ro (formStr form) files _ _
      (fun f =>
        { path := get_new_path f (formStr form)
          encoding := detect_encoding chardet fs f
          content := (set_from_general_format (adapterOf ro form "" (some ""))
            (get_general_format
              (adapterOf ro
                ((strToForm (sdetect f (detect_encoding chardet fs f))).getD .mpl)
                f (detect_encoding chardet fs f)))).content })
      ?_]
  intro x hx
  obtain ⟨c, hc⟩ := hknown x hx
  rw [get_subtitle_known ro _ c hc,
    write_file_inl_ok ro _ _ _ _ (get_subtitle_formStr ro form "" (some ""))]
  simp [hc]

/-- Concrete one-file scenario shared by the conversion witnesses: one SubRip
file with a single entry from second 1 to second 2. -/
def wfs : FS := ⟨[("f.srt", .fileNode [1])]⟩

def wro : ReadOracle := fun _ => ⟨[], [⟨1, ⟨0, 0, 1, 0⟩, ⟨0, 0, 2, 0⟩, ["Hello"]⟩], [], []⟩

def wchardet : Chardet := fun _ => some "utf-8"

def wchardetNone : Chardet := fun _ => none

def wsdetect : SublibDetect := fun _ _ => "srt"

/-- Witness for C3: the one-file scenario converted to TMPlayer. -/
theorem convert_pipeline_per_file_witness :
    wfs.existsPath "f.srt" = true ∧
      find_files wfs "f.srt" = some ["f.srt"] ∧
      (∀ f ∈ ["f.srt"],
        ∃ c, strToForm (wsdetect f (detect_encoding wchardet wfs f)) = some c) ∧
      (cli.main wro wfs wchardet wsdetect (.convert .tmp) "f.srt").writes =
        ["f.srt"].map fun f =>
          { path := get_new_path f (formStr .tmp)
            encoding := detect_encoding wchardet wfs f
            content := (set_from_general_format (adapterOf wro .tmp "" (some ""))
              (get_general_format
                (adapterOf wro
                  ((strToForm (wsdetect f (detect_encoding wchardet wfs f))).getD .mpl)
                  f (detect_encoding wchardet wfs f)))).content } :=
  ⟨by decide, by decide, fun f hf => ⟨.srt, rfl⟩,
    convert_pipeline_per_file wro wfs wchardet wsdetect .tmp "f.srt" ["f.srt"]
      (by decide) (by decide) (fun f hf => ⟨.srt, rfl⟩)⟩

/-! C9 and C6: the encoding carried into the output write. -/

lemma main_convert_write_encoding (ro : ReadOracle) (fs : FS) (chardet : Chardet)
    (sdetect : SublibDetect) (form : ConvForm) (path : String) (files : List String)
    (i : Nat) (ev : WriteEvent) (f : String)
    (hex : fs.existsPath path = true) (hfind : find_files fs path = some files)
    (hev : (cli.main ro fs chardet sdetect (.convert form) path).writes[i]? = some ev)
    (hf : files[i]? = some f) :
    ev.encoding = detect_encoding chardet fs f := by
  rw [main_convert_writes ro fs chardet sdetect form path files hex hfind] at hev
  obtain ⟨o, ho, he⟩ := runWrites_encoding ro (formStr form) _ _ i ev hev
  rw [List.getElem?_map, hf] at ho
  simp only [Option.map_some', Option.some.injEq] at ho
  subst ho
  exact he

/-- C9: every write performed by a convert run uses exactly the encoding
detected for the corresponding source file; the detected encoding is carried
through the input and output dicts unchanged into the open call. -/
theorem conversion_preserves_detected_encoding (ro : ReadOracle) (fs : FS)
    (chardet : Chardet) (sdetect : SublibDetect) (form : ConvForm) (path : String)
    (files : List String) (i : Nat) (ev : WriteEvent) (f : String)
    (hex : fs.existsPath path = true) (hfind : find_files fs path = some files)
    (hev : (cli.main ro fs chardet sdetect (.convert form) path).writes[i]? = some ev)
    (hf : files[i]? = some f) :
    ev.encoding = detect_encoding chardet fs f :=
  main_convert_write_encoding ro fs chardet sdetect form path files i ev f hex hfind hev hf

/-- Witness for C9 on the one-file scenario. -/
theorem conversion_preserves_detected_encoding_witness :
    wfs.existsPath "f.srt" = true ∧
      find_files wfs "f.srt" = some ["f.srt"] ∧
      (cli.main wro wfs wchardet wsdetect (.convert .tmp) "f.srt").writes[0]? =
        some ⟨"f.txt", some "utf-8", .tmp [⟨0, 0, 1, ["Hello"]⟩]⟩ ∧
      (["f.srt"] : List String)[0]? = some "f.srt" ∧
      (⟨"f.txt", some "utf-8", .tmp [⟨0, 0, 1, ["Hello"]⟩]⟩ : WriteEvent).encoding =
        detect_encoding wchardet wfs "f.srt" :=
  ⟨by decide, by decide, by decide, by decide,
    conversion_preserves_detected_encoding wro wfs wchardet wsdetect .tmp "f.srt"
      ["f.srt"] 0 ⟨"f.txt", some "utf-8", .tmp [⟨0, 0, 1, ["Hello"]⟩]⟩ "f.srt"
      (by decide) (by decide) (by decide) (by decide)⟩

/-- C6 counterexample: with a detector returning no usable encoding, the run
applies no fallback; the undetected sentinel (python None) is what the
output file is opened with. -/
theorem encoding_fallback_missing_counterexample :
    detect_encoding wchardetNone wfs "f.srt" = none ∧
      (cli.main wro wfs wchardetNone wsdetect (.convert .tmp) "f.srt").writes =
        [⟨"f.txt", none, .tmp [⟨0, 0, 1, ["Hello"]⟩]⟩] := by
  decide

/-- C6 amended: when encoding detection returns no usable encoding for a
file, the undetected sentinel is passed unchanged into the output open call
(no fallback policy is applied anywhere in between). -/
theorem undetected_encoding_passed_to_output (ro : ReadOracle) (fs : FS)
    (chardet : Chardet) (sdetect : SublibDetect) (form : ConvForm) (path : String)
    (files : List String) (i : Nat) (ev : WriteEvent) (f : String)
    (hex : fs.existsPath path = true) (hfind : find_files fs path = some files)
    (hev : (cli.main ro fs chardet sdetect (.convert form) path).writes[i]? = some ev)
    (hf : files[i]? = some f)
    (hnone : detect_encoding chardet fs f = none) :
    ev.encoding = none := by
  rw [← hnone]
  exact main_convert_write_encoding ro fs chardet sdetect form path files i ev f hex hfind hev hf

/-- Witness for the amended C6 on the one-file scenario with the undetecting
chardet. -/
theorem undetected_encoding_passed_to_output_witness :
    detect_encoding wchardetNone wfs "f.srt" = none ∧
      (cli.main wro wfs wchardetNone wsdetect (.convert .tmp) "f.srt").writes[0]? =
        some ⟨"f.txt", none, .tmp [⟨0, 0, 1, ["Hello"]⟩]⟩ ∧
      (⟨"f.txt", none, .tmp [⟨0, 0, 1, ["Hello"]⟩]⟩ : WriteEvent).encoding = none :=
  ⟨by decide, by decide,
    undetected_encoding_passed_to_output wro wfs wchardetNone wsdetect .tmp "f.srt"
      ["f.srt"] 0 ⟨"f.txt", none, .tmp [⟨0, 0, 1, ["Hello"]⟩]⟩ "f.srt"
      (by decide) (by decide) (by decide) (by decide) (by decide)⟩

/-! C7: same-format round trip. -/

/-- Two entries agreeing in timing and text (the sequence index may be
re-numbered on output). -/
def EntryMatch (a b : Entry) : Prop :=
  a.start = b.start ∧ a.stop = b.stop ∧ a.lines = b.lines

/-- Two general-format representations identical in entry count, ordering,
timing and text. -/
def SameEntries (g g2 : GeneralFormat) : Prop :=
  g.length = g2.length ∧ List.Forall₂ EntryMatch g g2

lemma SameEntries_of_eq {g g2 : GeneralFormat} (h : g = g2) : SameEntries g g2 := by
  subst h
  refine ⟨rfl, ?_⟩
  rw [List.forall₂_same]
  intro x hx
  exact ⟨rfl, rfl, rfl⟩

lemma serializeMpl_cons (e : Entry) (g : GeneralFormat) :
    serializeMpl (e :: g) =
      ⟨(e.start + 50) / 100, (e.stop + 50) / 100, e.lines⟩ :: serializeMpl g := rfl

lemma mpl_roundtrip (i : Nat) (rs : List MplRec) :
    parseMpl i (serializeMpl (parseMpl i rs)) = parseMpl i rs := by
  induction rs generalizing i with
  | nil => rfl
  | cons r rs ih =>
    simp only [parseMpl, serializeMpl_cons]
    rw [show (r.start * 100 + 50) / 100 * 100 = r.start * 100 by omega,
      show (r.stop * 100 + 50) / 100 * 100 = r.stop * 100 by omega]
    exact congrArg (List.cons _) (ih (i + 1))

lemma serializeSub_cons (e : Entry) (g : GeneralFormat) :
    serializeSub (e :: g) =
      ⟨(e.start + 20) / 40, (e.stop + 20) / 40, e.lines⟩ :: serializeSub g := rfl

lemma sub_roundtrip (i : Nat) (rs : List SubRec) :
    parseSub i (serializeSub (parseSub i rs)) = parseSub i rs := by
  induction rs generalizing i with
  | nil => rfl
  | cons r rs ih =>
    simp only [parseSub, serializeSub_cons]
    rw [show (r.startF * 40 + 20) / 40 * 40 = r.startF * 40 by omega,
      show (r.stopF * 40 + 20) / 40 * 40 = r.stopF * 40 by omega]
    exact congrArg (List.cons _) (ih (i + 1))

lemma stamp_ms_roundtrip (t : Nat) : stampToMs (msToStamp t) = t := by
  simp [stampToMs, msToStamp]
  omega

lemma srt_roundtrip_forall (j : Nat) (g : GeneralFormat) :
    List.Forall₂ EntryMatch (parseSrt (serializeSrt j g)) g := by
  induction g generalizing j with
  | nil => exact List.Forall₂.nil
  | cons e es ih =>
    simp only [serializeSrt, parseSrt, List.map_cons]
    constructor
    · exact ⟨stamp_ms_roundtrip e.start, stamp_ms_roundtrip e.stop, rfl⟩
    · exact ih (j + 1)

lemma tmpStartMs_tmpRecOf (e : Entry) (S : Nat) (h : e.start = S * 1000) :
    tmpStartMs (tmpRecOf e) = S * 1000 := by
  simp [tmpStartMs, tmpRecOf, h]
  omega

lemma serializeTmp_cons (e : Entry) (g : GeneralFormat) :
    serializeTmp (e :: g) = tmpRecOf e :: serializeTmp g := rfl

lemma parseTmp_eq_of (rs rs2 : List TmpRec)
    (h : List.Forall₂ (fun a b => tmpStartMs a = tmpStartMs b ∧ a.lines = b.lines) rs rs2) :
    ∀ i, parseTmp i rs = parseTmp i rs2 := by
  induction h with
  | nil => intro i; rfl
  | @cons a b l1 l2 ha htail ih =>
    intro i
    cases htail with
    | nil =>
      show (⟨i, tmpStartMs a, tmpStartMs a + 5000, a.lines⟩ : Entry) :: parseTmp (i + 1) [] =
        (⟨i, tmpStartMs b, tmpStartMs b + 5000, b.lines⟩ : Entry) :: parseTmp (i + 1) []
      rw [ha.1, ha.2]
    | @cons a2 b2 l1t l2t hb htail2 =>
      have htl : parseTmp (i + 1) (a2 :: l1t) = parseTmp (i + 1) (b2 :: l2t) := ih (i + 1)
      show (⟨i, tmpStartMs a, tmpStartMs a2, a.lines⟩ : Entry) :: parseTmp (i + 1) (a2 :: l1t) =
        (⟨i, tmpStartMs b, tmpStartMs b2, b.lines⟩ : Entry) :: parseTmp (i + 1) (b2 :: l2t)
      rw [ha.1, ha.2, hb.1, htl]

lemma serializeTmp_parseTmp_forall (i : Nat) (rs : List TmpRec) :
    List.Forall₂ (fun a b => tmpStartMs a = tmpStartMs b ∧ a.lines = b.lines)
      (serializeTmp (parseTmp i rs)) rs := by
  induction rs generalizing i with
  | nil => exact List.Forall₂.nil
  | cons r rs ih =>
    cases rs with
    | nil =>
      exact List.Forall₂.cons
        ⟨tmpStartMs_tmpRecOf _ (r.h * 3600 + r.m * 60 + r.s) rfl, rfl⟩
        List.Forall₂.nil
    | cons r2 rs2 =>
      exact List.Forall₂.cons
        ⟨tmpStartMs_tmpRecOf _ (r.h * 3600 + r.m * 60 + r.s) rfl, rfl⟩
        (ih (i + 1))

lemma tmp_roundtrip (i : Nat) (rs : List TmpRec) :
    parseTmp i (serializeTmp (parseTmp i rs)) = parseTmp i rs :=
  parseTmp_eq_of _ _ (serializeTmp_parseTmp_forall i rs) i

/-- C7: for every well-formed text in a format (its grammar-matched record
list), serializing the parse result back into the same format and parsing
again yields a general-format representation identical in entry count,
ordering, timing and text to the one produced by parsing alone (SubRip
sequence indices may be re-numbered, which the spec allows). -/
theorem same_format_roundtrip (c : Content) :
    SameEntries
      (parseContent (serializeContent (formOf c) (parseContent c)))
      (parseContent c) := by
  cases c with
  | mpl rs => exact SameEntries_of_eq (mpl_roundtrip 1 rs)
  | sub rs => exact SameEntries_of_eq (sub_roundtrip 1 rs)
  | tmp rs => exact SameEntries_of_eq (tmp_roundtrip 1 rs)
  | srt rs =>
    have h := srt_roundtrip_forall 1 (parseSrt rs)
    exact ⟨h.length_eq, h⟩
